import Mathlib

/-!
Shallow embedding of the `tag2json` program (src/main.rs): a CLI converting
between ID3 tag containers and JSON sidecar documents, with a batch traversal
mode.  External collaborators (the `id3` tag codec, the `json` (de)serializer,
and the filesystem) are modelled as oracles/parameters per the supplied-library
contracts the program relies on; every piece of control flow and data mapping
of main.rs itself is translated directly.
-/

namespace Tag2Json

/-- Raw bytes of a file or picture (`Vec<u8>`), abstracted as a list of byte
values. -/
abbrev Bytes := List Nat

/-! ## JSON values (the `json` crate's `JsonValue`)

The crate distinguishes `Short`/`String` variants and stores numbers as
floating point; both string variants are modelled as `str` and numbers as
`Int`, which is faithful for everything the program observes (`is_string`,
string content, and non-string-ness).  An object is an ordered list of
key/value entries with unique keys, inserts overwriting in place. -/

inductive JsonValue where
  | null
  | bool (b : Bool)
  | num (n : Int)
  | str (s : String)
  | arr (xs : List JsonValue)
  | obj (entries : List (String × JsonValue))
deriving Repr

/-- `JsonValue::is_string` of the json crate. -/
def JsonValue.is_string : JsonValue → Bool
  | .str _ => true
  | _ => false

/-- `JsonValue::is_object` of the json crate. -/
def JsonValue.is_object : JsonValue → Bool
  | .obj _ => true
  | _ => false

/-- `JsonValue::entries()`: iterates the key/value pairs of an object and
nothing for any other value. -/
def JsonValue.entries : JsonValue → List (String × JsonValue)
  | .obj e => e
  | _ => []

/-- Insertion into the entry list of a json object: an existing key has its
value overwritten in place (keeping its position); a fresh key is appended. -/
def objInsert (e : List (String × JsonValue)) (k : String) (v : JsonValue) :
    List (String × JsonValue) :=
  if e.any (fun kv => kv.1 == k) then
    e.map (fun kv => if kv.1 == k then (k, v) else kv)
  else
    e ++ [(k, v)]

/-- `json[key] = value` (the crate's `IndexMut<&str>`): inserts into an
object; a non-object value is first replaced by a fresh empty object.  The
program only ever applies it to objects. -/
def JsonValue.insert (j : JsonValue) (k : String) (v : JsonValue) : JsonValue :=
  match j with
  | .obj e => .obj (objInsert e k v)
  | _ => .obj (objInsert [] k v)

/-! ## ID3 tag model (the `id3` crate surface the program uses) -/

/-- `id3::frame::Picture`: raw data plus metadata. `picture_type` is the
numeric classification (`CoverFront = 3`). -/
structure Pic where
  data : Bytes
  description : String
  picture_type : Nat
  mime_type : String
deriving Repr, DecidableEq

/-- `id3::frame::PictureType::CoverFront`. -/
def cover_front : Nat := 3

/-- The content of a frame: the program only ever constructs and inspects
textual content and pictures. -/
inductive FrameContent where
  | text (s : String)
  | picture (p : Pic)
deriving Repr, DecidableEq

/-- `Content::text()`: the textual content of a frame, `none` for a
picture. -/
def FrameContent.as_text : FrameContent → Option String
  | .text s => some s
  | .picture _ => none

/-- An ID3 frame: an identifier (e.g. a 4-character code) plus content. -/
structure Frame where
  id : String
  content : FrameContent
deriving Repr, DecidableEq

/-- `Frame::text(id, content)`. -/
def Frame.text (id s : String) : Frame := ⟨id, .text s⟩

/-- `Frame::from(picture)`: a picture frame always carries the id
`"APIC"`. -/
def Frame.apic (p : Pic) : Frame := ⟨"APIC", .picture p⟩

/-- The key under which `id3`'s `Tag::add_frame` considers two frames to
conflict (and thus replaces one by the other): the frame id, together with the
picture classification for picture frames (text frames of equal id always
conflict). -/
def Frame.conflictKey (f : Frame) : String × Option Nat :=
  (f.id, match f.content with
    | .text _ => none
    | .picture p => some p.picture_type)

/-- `id3::Tag`: the ordered collection of frames of one file. -/
structure Tag where
  frames : List Frame
deriving Repr, DecidableEq

/-- `Tag::new()`. -/
def Tag.new : Tag := ⟨[]⟩

/-- Removes the first frame with the given conflict key, as `add_frame`'s
`position`/`remove` pair does. -/
def remove_conflict (key : String × Option Nat) : List Frame → List Frame
  | [] => []
  | f :: fs => if f.conflictKey = key then fs else f :: remove_conflict key fs

/-- `Tag::add_frame`: replaces any conflicting frame and pushes the new frame
at the end. -/
def Tag.add_frame (t : Tag) (f : Frame) : Tag :=
  ⟨remove_conflict f.conflictKey t.frames ++ [f]⟩

/-- `tag.pictures().next()`: the first picture frame of the tag, if any. -/
def Tag.first_picture (t : Tag) : Option Pic :=
  (t.frames.filterMap (fun f => match f.content with
    | .picture p => some p
    | _ => none)).head?

/-! ## Path manipulation (`std::path`)

Paths are modelled as strings.  `with_extension` reproduces Rust's
`Path::with_extension`/`set_extension`: the file name is replaced by its stem
followed by `"."` and the new extension — note that the extension argument is
appended verbatim after the dot, so an argument that itself starts with a dot
(as the program passes in single-file mode) produces a double dot. -/

/-- Rust `Path::file_stem` on a single file name: the whole name if it holds
no `'.'`, the whole name if its only `'.'` is the leading one (hidden files),
otherwise the portion before the final `'.'`. -/
def rust_file_stem (name : String) : String :=
  let rev := name.toList.reverse
  match rev.dropWhile (fun c => c ≠ '.') with
  | [] => name
  | [_] => name
  | _ :: revStem => String.mk revStem.reverse

/-- Rust `Path::with_extension` on a string path: the file name (the part
after the last `'/'`) is replaced by its stem, then `"." ++ ext` is appended
when `ext` is nonempty.  A path without a file name is returned unchanged
(Rust's `set_extension` returns `false` and leaves the path alone). -/
def with_extension (path ext : String) : String :=
  let rev := path.toList.reverse
  let name := String.mk (rev.takeWhile (fun c => c ≠ '/')).reverse
  let dir := String.mk (rev.dropWhile (fun c => c ≠ '/')).reverse
  if name.isEmpty then path
  else dir ++ rust_file_stem name ++ (if ext.isEmpty then "" else "." ++ ext)

/-- Rust `str::ends_with`: a case-sensitive suffix check. -/
def str_ends_with (s pat : String) : Bool :=
  List.isSuffixOf pat.toList s.toList

/-! ## Events and filesystem oracles

The observable effects of a run are collected into an event trace; fallible
filesystem operations are supplied as oracles so every error path of the
program can be exercised. -/

/-- What `write_data_to_path` writes: the serialized sidecar text or raw
art/picture bytes. -/
inductive WriteData where
  | text (s : String)
  | bytes (b : Bytes)
deriving Repr, DecidableEq

/-- An observable effect of a run. `writeTagAttempt` marks the call to
`tag.write_to_path`, recorded whether or not the codec then fails. -/
inductive Event where
  | writeFile (path : String) (data : WriteData)
  | writeTagAttempt (path : String) (tag : Tag)
  | stderrMsg (m : String)
  | stdoutMsg (m : String)
deriving Repr, DecidableEq

/-- How a `write_data_to_path` call fails: `File::create` failing, or the
subsequent `write_all` failing; each carries the OS error text. -/
inductive WriteFailure where
  | createFail (e : String)
  | writeFail (e : String)
deriving Repr, DecidableEq

/-- The error message `write_data_to_path` produces for each failure mode
(main.rs lines 60–69). -/
def write_failure_message (path : String) : WriteFailure → String
  | .createFail e => "Cannot open " ++ path ++ ": " ++ e
  | .writeFail e => "Cannot write JSON: " ++ e

/-- `write_data_to_path` (main.rs lines 60–69), with the filesystem outcome
for each path supplied by the oracle `we` (`none` = the write succeeds). -/
def write_data_to_path (we : String → Option WriteFailure) (path : String) :
    Except String Unit :=
  match we path with
  | some f => .error (write_failure_message path f)
  | none => .ok ()

/-! ## SidecarCodec: the tag ⇄ document mapping -/

/-- The extraction loop of `extract_tags_pic` (main.rs lines 76–81): every
frame with textual content contributes `doc[frame.id] = text`, built up by
object insertion (so a duplicated id collapses, last value winning). -/
def tags_to_json (t : Tag) : JsonValue :=
  t.frames.foldl
    (fun j f =>
      match f.content.as_text with
      | some txt => j.insert f.id (JsonValue.str txt)
      | none => j)
    (JsonValue.obj [])

/-- The tag-building loop of `apply_tags` (main.rs lines 122–129): every
string-valued entry becomes a text frame via `Frame::text(key, val)` and
`add_frame`; other entries are skipped.  (`val.to_string()` on a json string
value is the raw string content, per the crate's `Display`.) -/
def json_to_tag (entries : List (String × JsonValue)) : Tag :=
  entries.foldl
    (fun t kv =>
      match kv.2 with
      | .str s => t.add_frame (Frame.text kv.1 s)
      | _ => t)
    Tag.new

/-- `extract_tags_pic` (main.rs lines 71–84): `read_result` is the outcome of
`Tag::read_from_path`. -/
def extract_tags_pic (read_result : Except String Tag) :
    Except String (JsonValue × Option Bytes) :=
  match read_result with
  | .error e => .error ("Unable to open id3 file: " ++ e)
  | .ok tag => .ok (tags_to_json tag, tag.first_picture.map Pic.data)

/-! ## Single-file mode -/

/-- The positional arguments of single-file mode. -/
structure SingleOpts where
  id3 : String
  json : Option String
  art : Option String

/-- The filesystem surface `apply_tags` touches, as oracles. -/
structure FileOps where
  read_to_string : String → Except String String
  file_exists : String → Bool
  read_bytes : String → Except String Bytes
  write_tag : String → Tag → Except String Unit

/-- The final `tag.write_to_path(opts.id3, Id3v24)` step of `apply_tags`
(main.rs lines 152–155): the attempt is recorded as an event whether or not
the codec reports failure. -/
def write_step (ops : FileOps) (path : String) (t : Tag) :
    Except String Unit × List Event :=
  match ops.write_tag path t with
  | .error e => (.error ("Could not write tags: " ++ e), [.writeTagAttempt path t])
  | .ok _ => (.ok (), [.writeTagAttempt path t])

/-- `extract_file` (main.rs lines 87–103).  `pretty` models
`json::stringify_pretty(·, 4)`, `read_result` the outcome of
`Tag::read_from_path(opts.id3)`.  Returns the program result together with the
trace of file writes performed. -/
def extract_file (pretty : JsonValue → String) (read_result : Except String Tag)
    (we : String → Option WriteFailure) (opts : SingleOpts) :
    Except String Unit × List Event :=
  let art_path := opts.art.getD (with_extension opts.id3 ".jpg")
  let json_path := opts.json.getD (with_extension opts.id3 ".json")
  match extract_tags_pic read_result with
  | .error e => (.error e, [])
  | .ok (json, data) =>
    let pretty_json := pretty json
    match write_data_to_path we json_path with
    | .error e => (.error e, [])
    | .ok _ =>
      match data with
      | some d =>
        match write_data_to_path we art_path with
        | .error e => (.error e, [.writeFile json_path (.text pretty_json)])
        | .ok _ =>
          (.ok (), [.writeFile json_path (.text pretty_json),
                    .writeFile art_path (.bytes d)])
      | none => (.ok (), [.writeFile json_path (.text pretty_json)])

/-- `apply_tags` (main.rs lines 105–156).  `parse` models `json::parse`; the
filesystem is supplied by `ops`.  Returns the program result together with the
trace of effects — in particular whether the audio path was written. -/
def apply_tags (parse : String → Except String JsonValue) (ops : FileOps)
    (opts : SingleOpts) : Except String Unit × List Event :=
  let json_path := opts.json.getD (with_extension opts.id3 ".json")
  match ops.read_to_string json_path with
  | .error e => (.error ("Unable to open json file: " ++ e), [])
  | .ok s =>
    match parse s with
    | .error e => (.error ("Unable to parse JSON: " ++ e), [])
    | .ok json =>
      if !json.is_object then (.error "No root object found", [])
      else
        let tag := json_to_tag json.entries
        match opts.art with
        | some album_path =>
          if ops.file_exists album_path then
            match ops.read_bytes album_path with
            | .error e => (.error ("Cannot read album art data: " ++ e), [])
            | .ok data =>
              write_step ops opts.id3
                (tag.add_frame (Frame.apic ⟨data, "", cover_front, "image/jpeg"⟩))
          else
            (.error ("Provided album path does not exist: " ++ album_path), [])
        | none => write_step ops opts.id3 tag

/-! ## Batch mode -/

/-- A node of the filesystem as `batch_extract` observes it.  A `file` carries
the outcome of `Tag::read_from_path` on it.  A directory whose `read_dir` call
succeeds is `dirOk`; its children list is the raw listing, where an entry the
iterator yielded as `Err` (dropped by the program's `filter_map(Result::ok)`)
is the marker `badEntry`.  A directory whose `read_dir` call itself fails is
`dirErr` — the program calls `.unwrap()` on that result.  `other` is a path
that is neither a regular file nor a directory. -/
inductive FSEntry where
  | file (path : String) (tag_read : Except String Tag)
  | dirOk (path : String) (children : List FSEntry)
  | dirErr (path : String)
  | badEntry
  | other (path : String)

/-- The mutable state of a batch run: the aggregate `blob` plus the event
trace so far. -/
structure BState where
  blob : JsonValue
  events : List Event

/-- Outcome of a batch traversal: normal completion, an `Err` propagated by
`?` (carrying the state at that moment), or a panic from
`read_dir().unwrap()`. -/
inductive BResult where
  | ok (s : BState)
  | fatal (e : String) (s : BState)
  | panicked (s : BState)

/-- The event trace held in a batch outcome. -/
def BResult.events : BResult → List Event
  | .ok s => s.events
  | .fatal _ s => s.events
  | .panicked s => s.events

/-- The sidecar-document output step for one file of `batch_extract`
(main.rs lines 179–185): in aggregate mode `blob[path] = json`; otherwise the
pretty-printed document is written to `<file>.json`.  An `Err` of
`write_data_to_path` is propagated (`?`). -/
def emit_doc (pretty : JsonValue → String) (we : String → Option WriteFailure)
    (aggregate : Bool) (path : String) (json : JsonValue) (s : BState) :
    Except (String × BState) BState :=
  if aggregate then
    .ok { s with blob := s.blob.insert path json }
  else
    match write_data_to_path we (with_extension path "json") with
    | .error e => .error (e, s)
    | .ok _ =>
      .ok { s with events := s.events ++
        [.writeFile (with_extension path "json") (.text (pretty json))] }

/-- The per-matching-file body of `batch_extract` (main.rs lines 169–185): a
failing tag read is reported on stderr and the file skipped (`.ok`); a
present picture is written to `<file>.jpeg` before the document is emitted,
write failures being propagated as `.error` (the `?` operator). -/
def handle_file (pretty : JsonValue → String) (we : String → Option WriteFailure)
    (aggregate : Bool) (path : String) (tr : Except String Tag) (s : BState) :
    Except (String × BState) BState :=
  match extract_tags_pic tr with
  | .error e =>
    .ok { s with events := s.events ++
      [.stderrMsg ("Could not handle " ++ path ++ ": " ++ e)] }
  | .ok (json, pic) =>
    match pic with
    | some d =>
      match write_data_to_path we (with_extension path "jpeg") with
      | .error e => .error (e, s)
      | .ok _ =>
        emit_doc pretty we aggregate path json
          { s with events := s.events ++
            [.writeFile (with_extension path "jpeg") (.bytes d)] }
    | none => emit_doc pretty we aggregate path json s

/-- `batch_extract` (main.rs lines 158–189).  A directory is recursed into
when `recurse` is set (its `Err` listing entries — `badEntry` — being
skipped), and skipped otherwise; a failing `read_dir` call panics
(`unwrap`).  A regular file is processed only when its path ends with
`"mp3"`. -/
def batch_extract (pretty : JsonValue → String) (we : String → Option WriteFailure)
    (aggregate recurse : Bool) : List FSEntry → BState → BResult
  | [], s => .ok s
  | FSEntry.dirOk _ children :: rest, s =>
    if recurse then
      match batch_extract pretty we aggregate recurse children s with
      | .ok s1 => batch_extract pretty we aggregate recurse rest s1
      | r => r
    else
      batch_extract pretty we aggregate recurse rest s
  | FSEntry.dirErr _ :: rest, s =>
    if recurse then .panicked s
    else batch_extract pretty we aggregate recurse rest s
  | FSEntry.badEntry :: rest, s => batch_extract pretty we aggregate recurse rest s
  | FSEntry.other _ :: rest, s => batch_extract pretty we aggregate recurse rest s
  | FSEntry.file path tr :: rest, s =>
    if str_ends_with path "mp3" then
      match handle_file pretty we aggregate path tr s with
      | .ok s1 => batch_extract pretty we aggregate recurse rest s1
      | .error (m, s1) => .fatal m s1
    else
      batch_extract pretty we aggregate recurse rest s
termination_by l _ => sizeOf l

/-- The `Mode::BatchExtract` branch of `main` (main.rs lines 196–204): run the
traversal on a fresh object blob and, in aggregate mode, print the serialized
blob once at the end; a propagated error aborts before any printing. -/
def run_batch_extract (pretty : JsonValue → String)
    (we : String → Option WriteFailure) (aggregate recurse : Bool)
    (files : List FSEntry) : BResult :=
  match batch_extract pretty we aggregate recurse files ⟨JsonValue.obj [], []⟩ with
  | .ok s =>
    if aggregate then .ok { s with events := s.events ++ [.stdoutMsg (pretty s.blob)] }
    else .ok s
  | r => r

/-- The text frames the apply loop creates, one per string-valued entry. -/
def text_frames (entries : List (String × JsonValue)) : List Frame :=
  entries.filterMap (fun kv =>
    match kv.2 with
    | .str s => some (Frame.text kv.1 s)
    | _ => none)

/-- The key/value pairs the extraction loop reads off a frame list. -/
def doc_pairs (frames : List Frame) : List (String × JsonValue) :=
  frames.filterMap (fun f => f.content.as_text.map (fun txt => (f.id, JsonValue.str txt)))

/-- Valid ID3 frame identifier: the id3 crate accepts ids of 3 or 4 bytes. -/
def valid_frame_id (s : String) : Prop := s.length = 3 ∨ s.length = 4

instance : DecidablePred valid_frame_id := fun s => by
  unfold valid_frame_id; infer_instance

/-- The enumerated conditions of claim C10 under which `apply_tags` fails
before reaching the tag-write step: sidecar unreadable, JSON malformed, root
not an object, declared art path missing, or art bytes unreadable. -/
def is_prewrite_failure (parse : String → Except String JsonValue) (ops : FileOps)
    (opts : SingleOpts) : Bool :=
  match ops.read_to_string (opts.json.getD (with_extension opts.id3 ".json")) with
  | .error _ => true
  | .ok s =>
    match parse s with
    | .error _ => true
    | .ok j =>
      if !j.is_object then true
      else
        match opts.art with
        | none => false
        | some p =>
          if ops.file_exists p then
            match ops.read_bytes p with
            | .error _ => true
            | .ok _ => false
          else true

/-- Events that aggregate-mode traversal may emit per file: art byte writes
and stderr reports — never sidecar text writes, stdout prints, or tag
writes. -/
def agg_event_ok : Event → Bool
  | .writeFile _ (.bytes _) => true
  | .stderrMsg _ => true
  | _ => false

lemma remove_conflict_of_no_match (key : String × Option Nat) (l : List Frame)
    (h : ∀ f ∈ l, f.conflictKey ≠ key) : remove_conflict key l = l := by
  induction l with
  | nil => rfl
  | cons f fs ih =>
    simp only [remove_conflict]
    rw [if_neg (h f (by simp)), ih (fun g hg => h g (by simp [hg]))]

lemma add_frame_fresh (t : Tag) (f : Frame)
    (h : ∀ g ∈ t.frames, g.conflictKey ≠ f.conflictKey) :
    (t.add_frame f).frames = t.frames ++ [f] := by
  simp [Tag.add_frame, remove_conflict_of_no_match _ _ h]

lemma frame_text_conflictKey (k s : String) : (Frame.text k s).conflictKey = (k, none) := rfl

lemma conflictKey_fst (f : Frame) : f.conflictKey.1 = f.id := by
  cases f with
  | mk id c => cases c <;> rfl

lemma json_to_tag_fold (entries : List (String × JsonValue)) : ∀ (t : Tag),
    (∀ f ∈ t.frames, f.id ∉ entries.map Prod.fst) →
    (entries.map Prod.fst).Nodup →
    (entries.foldl
      (fun t kv =>
        match kv.2 with
        | .str s => t.add_frame (Frame.text kv.1 s)
        | _ => t) t).frames = t.frames ++ text_frames entries := by
  induction entries with
  | nil => intro t _ _; simp [text_frames]
  | cons kv rest ih =>
    obtain ⟨k, v⟩ := kv
    intro t hdisj hnd
    have hnd1 : (k :: rest.map Prod.fst).Nodup := by
      simpa only [List.map_cons] using hnd
    have hk : k ∉ rest.map Prod.fst := (List.nodup_cons.mp hnd1).1
    have hndr : (rest.map Prod.fst).Nodup := (List.nodup_cons.mp hnd1).2
    cases v with
    | str s =>
      have hfresh : ∀ g ∈ t.frames, g.conflictKey ≠ (Frame.text k s).conflictKey := by
        intro g hg heq
        have hid : g.id = k := by
          have := congrArg Prod.fst heq
          simpa [conflictKey_fst, frame_text_conflictKey] using this
        exact hdisj g hg (by simp [hid])
      have hadd : (t.add_frame (Frame.text k s)).frames = t.frames ++ [Frame.text k s] :=
        add_frame_fresh t _ hfresh
      have hcond : ∀ f ∈ (t.add_frame (Frame.text k s)).frames, f.id ∉ rest.map Prod.fst := by
        intro f hf
        rw [hadd] at hf
        rcases List.mem_append.mp hf with h | h
        · intro hmem
          exact hdisj f h (by simp [hmem])
        · simp at h
          subst h
          simpa [Frame.text] using hk
      have := ih (t.add_frame (Frame.text k s)) hcond hndr
      simp only [List.foldl_cons] at *
      rw [this, hadd]
      simp [text_frames]
    | null =>
      simp only [List.foldl_cons]
      rw [ih t (fun f hf hm => hdisj f hf (by simp [hm])) hndr]
      simp [text_frames]
    | bool b =>
      simp only [List.foldl_cons]
      rw [ih t (fun f hf hm => hdisj f hf (by simp [hm])) hndr]
      simp [text_frames]
    | num n =>
      simp only [List.foldl_cons]
      rw [ih t (fun f hf hm => hdisj f hf (by simp [hm])) hndr]
      simp [text_frames]
    | arr xs =>
      simp only [List.foldl_cons]
      rw [ih t (fun f hf hm => hdisj f hf (by simp [hm])) hndr]
      simp [text_frames]
    | obj e =>
      simp only [List.foldl_cons]
      rw [ih t (fun f hf hm => hdisj f hf (by simp [hm])) hndr]
      simp [text_frames]

lemma objInsert_fresh (e : List (String × JsonValue)) (k : String) (v : JsonValue)
    (h : k ∉ e.map Prod.fst) : objInsert e k v = e ++ [(k, v)] := by
  have hany : e.any (fun kv => kv.1 == k) = false := by
    rw [List.any_eq_false]
    intro kv hkv
    simp only [beq_iff_eq]
    intro heq
    exact h (heq ▸ List.mem_map_of_mem Prod.fst hkv)
  simp [objInsert, hany]

lemma tags_to_json_fold (frames : List Frame) : ∀ (acc : List (String × JsonValue)),
    ((doc_pairs frames).map Prod.fst).Nodup →
    (∀ kv ∈ acc, kv.1 ∉ (doc_pairs frames).map Prod.fst) →
    (frames.foldl
      (fun j f =>
        match f.content.as_text with
        | some txt => j.insert f.id (JsonValue.str txt)
        | none => j) (JsonValue.obj acc)) = JsonValue.obj (acc ++ doc_pairs frames) := by
  induction frames with
  | nil => intro acc _ _; simp [doc_pairs]
  | cons f rest ih =>
    intro acc hnd hdisj
    cases hc : f.content with
    | picture p =>
      have hstep : (fun (j : JsonValue) (f : Frame) =>
          match f.content.as_text with
          | some txt => j.insert f.id (JsonValue.str txt)
          | none => j) (JsonValue.obj acc) f = JsonValue.obj acc := by
        simp [hc, FrameContent.as_text]
      have hdp : doc_pairs (f :: rest) = doc_pairs rest := by
        simp [doc_pairs, hc, FrameContent.as_text]
      simp only [List.foldl_cons, hstep]
      rw [ih acc (by rw [hdp] at hnd; exact hnd) (by rw [hdp] at hdisj; exact hdisj), hdp]
    | text txt =>
      have hdp : doc_pairs (f :: rest) = (f.id, JsonValue.str txt) :: doc_pairs rest := by
        simp [doc_pairs, hc, FrameContent.as_text]
      have hfresh : f.id ∉ acc.map Prod.fst := by
        intro hmem
        rcases List.mem_map.mp hmem with ⟨kv, hkv, heq⟩
        exact hdisj kv hkv (by rw [hdp]; simp [heq])
      have hstep : (fun (j : JsonValue) (g : Frame) =>
          match g.content.as_text with
          | some txt => j.insert g.id (JsonValue.str txt)
          | none => j) (JsonValue.obj acc) f
          = JsonValue.obj (acc ++ [(f.id, JsonValue.str txt)]) := by
        simp [hc, FrameContent.as_text, JsonValue.insert, objInsert_fresh _ _ _ hfresh]
      have hnd1 : (f.id :: (doc_pairs rest).map Prod.fst).Nodup := by
        rw [hdp] at hnd
        simpa only [List.map_cons] using hnd
      have hk : f.id ∉ (doc_pairs rest).map Prod.fst := (List.nodup_cons.mp hnd1).1
      have hndr : ((doc_pairs rest).map Prod.fst).Nodup := (List.nodup_cons.mp hnd1).2
      have hdisj2 : ∀ kv ∈ acc ++ [(f.id, JsonValue.str txt)],
          kv.1 ∉ (doc_pairs rest).map Prod.fst := by
        intro kv hkv
        rcases List.mem_append.mp hkv with h | h
        · intro hm
          exact hdisj kv h (by rw [hdp]; simp [hm])
        · simp at h
          subst h
          simpa using hk
      simp only [List.foldl_cons, hstep]
      rw [ih _ hndr hdisj2, hdp]
      simp

lemma doc_pairs_text_frames (entries : List (String × JsonValue)) :
    doc_pairs (text_frames entries) = entries.filter (fun kv => kv.2.is_string) := by
  induction entries with
  | nil => rfl
  | cons kv rest ih =>
    obtain ⟨k, v⟩ := kv
    cases v <;>
      simp [text_frames, doc_pairs, List.filter_cons, JsonValue.is_string,
        Frame.text, FrameContent.as_text] <;>
      simpa [text_frames, doc_pairs] using ih

lemma handle_file_agg_events (pretty : JsonValue → String)
    (we : String → Option WriteFailure) (path : String) (tr : Except String Tag)
    (s : BState) :
    (∀ s1, handle_file pretty we true path tr s = .ok s1 →
      ∃ d, s1.events = s.events ++ d ∧ d.all agg_event_ok) ∧
    (∀ m s1, handle_file pretty we true path tr s = .error (m, s1) →
      ∃ d, s1.events = s.events ++ d ∧ d.all agg_event_ok) := by
  cases htr : extract_tags_pic tr with
  | error e =>
    constructor
    · intro s1 h1
      refine ⟨[.stderrMsg ("Could not handle " ++ path ++ ": " ++ e)], ?_, by simp [agg_event_ok]⟩
      simp [handle_file, htr] at h1
      rw [← h1]
    · intro m s1 h1
      simp [handle_file, htr] at h1
  | ok jp =>
    obtain ⟨json, pic⟩ := jp
    cases pic with
    | none =>
      constructor
      · intro s1 h1
        simp [handle_file, htr, emit_doc] at h1
        exact ⟨[], by rw [← h1]; simp, by simp⟩
      · intro m s1 h1
        simp [handle_file, htr, emit_doc] at h1
    | some d =>
      cases hw : write_data_to_path we (with_extension path "jpeg") with
      | error e =>
        constructor
        · intro s1 h1
          simp [handle_file, htr, hw] at h1
        · intro m s1 h1
          simp [handle_file, htr, hw] at h1
          exact ⟨[], by rw [← h1.2]; simp, by simp⟩
      | ok u =>
        constructor
        · intro s1 h1
          simp [handle_file, htr, hw, emit_doc] at h1
          refine ⟨[.writeFile (with_extension path "jpeg") (.bytes d)], ?_, by simp [agg_event_ok]⟩
          rw [← h1]
        · intro m s1 h1
          simp [handle_file, htr, hw, emit_doc] at h1

lemma batch_agg_events (pretty : JsonValue → String)
    (we : String → Option WriteFailure) (rec : Bool) (l : List FSEntry) (s : BState) :
    ∃ d, (batch_extract pretty we true rec l s).events = s.events ++ d ∧
      d.all agg_event_ok := by
  induction l, s using batch_extract.induct pretty we true rec with
  | case1 s =>
    exact ⟨[], by rw [batch_extract]; simp [BResult.events], by simp⟩
  | case2 path children rest s hrec s1 hok ihc ihr =>
    subst hrec
    obtain ⟨d1, hd1, hall1⟩ := ihc
    obtain ⟨d2, hd2, hall2⟩ := ihr
    have hstep : batch_extract pretty we true true (FSEntry.dirOk path children :: rest) s
        = batch_extract pretty we true true rest s1 := by
      rw [batch_extract, if_pos rfl, hok]
    refine ⟨d1 ++ d2, ?_, by simp_all [List.all_append]⟩
    rw [hstep, hd2]
    rw [hok] at hd1
    rw [show s1.events = s.events ++ d1 from hd1, List.append_assoc]
  | case3 path children rest s hrec hnotok ihc =>
    subst hrec
    obtain ⟨d1, hd1, hall1⟩ := ihc
    refine ⟨d1, ?_, hall1⟩
    cases hc : batch_extract pretty we true true children s with
    | ok s1 => exact absurd hc (hnotok s1)
    | fatal e s1 =>
      have hstep : batch_extract pretty we true true (FSEntry.dirOk path children :: rest) s
          = BResult.fatal e s1 := by rw [batch_extract, if_pos rfl, hc]
      rw [hstep]
      rw [hc] at hd1
      exact hd1
    | panicked s1 =>
      have hstep : batch_extract pretty we true true (FSEntry.dirOk path children :: rest) s
          = BResult.panicked s1 := by rw [batch_extract, if_pos rfl, hc]
      rw [hstep]
      rw [hc] at hd1
      exact hd1
  | case4 path children rest s hrec ihr =>
    rw [eq_false_of_ne_true hrec] at *
    obtain ⟨d, hd, hall⟩ := ihr
    refine ⟨d, ?_, hall⟩
    have hstep : batch_extract pretty we true false (FSEntry.dirOk path children :: rest) s
        = batch_extract pretty we true false rest s := by
      rw [batch_extract, if_neg Bool.false_ne_true]
    rw [hstep]
    exact hd
  | case5 path rest s hrec =>
    subst hrec
    have hstep : batch_extract pretty we true true (FSEntry.dirErr path :: rest) s
        = BResult.panicked s := by rw [batch_extract, if_pos rfl]
    exact ⟨[], by rw [hstep]; simp [BResult.events], by simp⟩
  | case6 path rest s hrec ihr =>
    rw [eq_false_of_ne_true hrec] at *
    obtain ⟨d, hd, hall⟩ := ihr
    refine ⟨d, ?_, hall⟩
    have hstep : batch_extract pretty we true false (FSEntry.dirErr path :: rest) s
        = batch_extract pretty we true false rest s := by
      rw [batch_extract, if_neg Bool.false_ne_true]
    rw [hstep]
    exact hd
  | case7 rest s ihr =>
    obtain ⟨d, hd, hall⟩ := ihr
    exact ⟨d, by rw [batch_extract]; exact hd, hall⟩
  | case8 path rest s ihr =>
    obtain ⟨d, hd, hall⟩ := ihr
    exact ⟨d, by rw [batch_extract]; exact hd, hall⟩
  | case9 path tr rest s hend s1 hok ihr =>
    obtain ⟨d1, hd1, hall1⟩ := (handle_file_agg_events pretty we path tr s).1 s1 hok
    obtain ⟨d2, hd2, hall2⟩ := ihr
    have hstep : batch_extract pretty we true rec (FSEntry.file path tr :: rest) s
        = batch_extract pretty we true rec rest s1 := by
      rw [batch_extract, if_pos hend, hok]
    refine ⟨d1 ++ d2, ?_, by simp_all [List.all_append]⟩
    rw [hstep, hd2, hd1, List.append_assoc]
  | case10 path tr rest s hend m s1 herr =>
    obtain ⟨d1, hd1, hall1⟩ := (handle_file_agg_events pretty we path tr s).2 m s1 herr
    have hstep : batch_extract pretty we true rec (FSEntry.file path tr :: rest) s
        = BResult.fatal m s1 := by
      rw [batch_extract, if_pos hend, herr]
    exact ⟨d1, by rw [hstep]; exact hd1, hall1⟩
  | case11 path tr rest s hend ihr =>
    obtain ⟨d, hd, hall⟩ := ihr
    have hstep : batch_extract pretty we true rec (FSEntry.file path tr :: rest) s
        = batch_extract pretty we true rec rest s := by
      rw [batch_extract, if_neg hend]
    exact ⟨d, by rw [hstep]; exact hd, hall⟩

/-- Claim C1: round-trip — for every document whose keys are valid frame ids
(and, as for any parsed json object, whose keys are distinct), building a
TagSet from it as `apply_tags` does and mapping that TagSet back to a document
as `extract_tags_pic` does yields exactly the document restricted to its
string-valued entries. -/
theorem c1_round_trip (entries : List (String × JsonValue))
    (hnd : (entries.map Prod.fst).Nodup)
    (hid : ∀ kv ∈ entries, valid_frame_id kv.1) :
    tags_to_json (json_to_tag entries)
      = JsonValue.obj (entries.filter (fun kv => kv.2.is_string)) := by
  have hframes : (json_to_tag entries).frames = text_frames entries := by
    have h1 := json_to_tag_fold entries Tag.new (by simp [Tag.new]) hnd
    simpa [json_to_tag, Tag.new] using h1
  have hndp : ((doc_pairs (text_frames entries)).map Prod.fst).Nodup := by
    rw [doc_pairs_text_frames]
    exact hnd.sublist ((List.filter_sublist entries).map Prod.fst)
  have h2 := tags_to_json_fold (text_frames entries) [] hndp (by simp)
  rw [tags_to_json, hframes, h2, doc_pairs_text_frames]
  simp

/-- Witness for C1 at a concrete three-entry document (two strings, one
number). -/
theorem c1_witness :
    tags_to_json (json_to_tag
        [("TIT2", JsonValue.str "Song"), ("TRCK", JsonValue.num 5),
         ("TALB", JsonValue.str "Album")])
      = JsonValue.obj
          ([("TIT2", JsonValue.str "Song"), ("TRCK", JsonValue.num 5),
            ("TALB", JsonValue.str "Album")].filter (fun kv => kv.2.is_string)) :=
  c1_round_trip _ (by decide) (by decide)

/-- Claim C2 evaluation: the single-file default paths are derived by
`with_extension` applied to the literal arguments `".json"` / `".jpg"`
(leading dot included), so for the audio path `"song.mp3"` the program uses
`"song..json"` and `"song..jpg"` — not the `"song.json"` / `"song.jpg"` the
claim describes.  The final conjunct runs `extract_file` with defaulted paths
to exhibit the actual write targets. -/
theorem c2_default_paths_eval :
    with_extension "song.mp3" ".json" = "song..json"
    ∧ with_extension "song.mp3" ".jpg" = "song..jpg"
    ∧ "song..json" ≠ "song.json"
    ∧ "song..jpg" ≠ "song.jpg"
    ∧ extract_file (fun _ => "{}")
        (.ok ⟨[Frame.apic ⟨[1], "", cover_front, "image/jpeg"⟩]⟩)
        (fun _ => none) ⟨"song.mp3", none, none⟩
      = (.ok (), [.writeFile "song..json" (.text "{}"),
                  .writeFile "song..jpg" (.bytes [1])]) := by
  refine ⟨by decide, by decide, by decide, by decide, by rfl⟩

/-- Claim C3: batch failure policy — a file whose tag container fails to read
is reported on stderr and skipped, traversal continuing with the rest (first
conjunct); any failure writing an output, art (second conjunct) or sidecar
(third conjunct), or generally any `handle_file` error (fourth conjunct),
makes `batch_extract` return a fatal error immediately, the remaining entries
untouched. -/
theorem c3_batch_error_policy (pretty : JsonValue → String)
    (we : String → Option WriteFailure) (agg rec : Bool) (path : String)
    (rest : List FSEntry) (s : BState) :
    (∀ e, batch_extract pretty we agg rec (FSEntry.file path (.error e) :: rest) s
        = if str_ends_with path "mp3" then
            batch_extract pretty we agg rec rest
              { s with events := s.events ++
                [.stderrMsg ("Could not handle " ++ path ++ ": "
                  ++ ("Unable to open id3 file: " ++ e))] }
          else batch_extract pretty we agg rec rest s)
    ∧ (∀ (tg : Tag) (p1 : Pic) (wf : WriteFailure),
        str_ends_with path "mp3" = true → tg.first_picture = some p1 →
        we (with_extension path "jpeg") = some wf →
        batch_extract pretty we agg rec (FSEntry.file path (.ok tg) :: rest) s
          = .fatal (write_failure_message (with_extension path "jpeg") wf) s)
    ∧ (∀ (tg : Tag) (wf : WriteFailure),
        str_ends_with path "mp3" = true → tg.first_picture = none →
        we (with_extension path "json") = some wf →
        batch_extract pretty we false rec (FSEntry.file path (.ok tg) :: rest) s
          = .fatal (write_failure_message (with_extension path "json") wf) s)
    ∧ (∀ tr m s1, str_ends_with path "mp3" = true →
        handle_file pretty we agg path tr s = .error (m, s1) →
        batch_extract pretty we agg rec (FSEntry.file path tr :: rest) s
          = .fatal m s1) := by
  refine ⟨?_, ?_, ?_, ?_⟩
  · intro e
    rw [batch_extract]
    by_cases h : str_ends_with path "mp3" <;>
      simp [h, handle_file, extract_tags_pic]
  · intro tg p1 wf hend hpic hw
    have hh : handle_file pretty we agg path (.ok tg) s
        = .error (write_failure_message (with_extension path "jpeg") wf, s) := by
      simp [handle_file, extract_tags_pic, hpic, write_data_to_path, hw]
    rw [batch_extract, if_pos hend, hh]
  · intro tg wf hend hpic hw
    have hh : handle_file pretty we false path (.ok tg) s
        = .error (write_failure_message (with_extension path "json") wf, s) := by
      simp [handle_file, extract_tags_pic, hpic, emit_doc, write_data_to_path, hw]
    rw [batch_extract, if_pos hend, hh]
  · intro tr m s1 hend herr
    rw [batch_extract, if_pos hend, herr]

/-- Witness for C3: a failing art write on a concrete one-file traversal
aborts the run with the write error. -/
theorem c3_witness :
    batch_extract (fun _ => "") (fun _ => some (WriteFailure.createFail "denied"))
      true true
      [FSEntry.file "a.mp3" (.ok ⟨[Frame.apic ⟨[7], "", cover_front, "image/jpeg"⟩]⟩)]
      ⟨JsonValue.obj [], []⟩
      = .fatal (write_failure_message (with_extension "a.mp3" "jpeg")
          (WriteFailure.createFail "denied")) ⟨JsonValue.obj [], []⟩ :=
  (c3_batch_error_policy (fun _ => "") (fun _ => some (WriteFailure.createFail "denied"))
      true true "a.mp3" [] ⟨JsonValue.obj [], []⟩).2.1
    ⟨[Frame.apic ⟨[7], "", cover_front, "image/jpeg"⟩]⟩
    ⟨[7], "", cover_front, "image/jpeg"⟩
    (WriteFailure.createFail "denied") (by decide) rfl rfl

/-- Claim C4: when an art path is explicitly supplied but does not exist on
disk (and the earlier sidecar read/parse/object steps reach the art check),
`apply_tags` returns the MissingArt error and its trace is empty — no write to
the audio path is performed. -/
theorem c4_missing_art_fatal (parse : String → Except String JsonValue)
    (ops : FileOps) (opts : SingleOpts) (p s : String) (j : JsonValue)
    (hart : opts.art = some p) (hex : ops.file_exists p = false)
    (hr : ops.read_to_string (opts.json.getD (with_extension opts.id3 ".json")) = .ok s)
    (hp : parse s = .ok j) (ho : j.is_object = true) :
    apply_tags parse ops opts
      = (.error ("Provided album path does not exist: " ++ p), []) := by
  simp [apply_tags, hr, hp, ho, hart, hex]

/-- Witness for C4 at a concrete invocation with art path `/nonexistent`. -/
theorem c4_witness :
    apply_tags (fun _ => .ok (JsonValue.obj []))
      ⟨fun _ => .ok "txt", fun _ => false, fun _ => .ok [], fun _ _ => .ok ()⟩
      ⟨"a.mp3", none, some "/nonexistent"⟩
      = (.error ("Provided album path does not exist: " ++ "/nonexistent"), []) :=
  c4_missing_art_fatal (fun _ => .ok (JsonValue.obj []))
    ⟨fun _ => .ok "txt", fun _ => false, fun _ => .ok [], fun _ _ => .ok ()⟩
    ⟨"a.mp3", none, some "/nonexistent"⟩ "/nonexistent" "txt" (JsonValue.obj [])
    rfl rfl rfl rfl rfl

/-- Claim C5: the tag set `apply_tags` builds contains one text frame per
string-valued entry of the sidecar object, every non-string entry being
silently ignored (keys are distinct in any parsed json object). -/
theorem c5_nonstring_ignored (entries : List (String × JsonValue))
    (hnd : (entries.map Prod.fst).Nodup) :
    (json_to_tag entries).frames
      = entries.filterMap (fun kv =>
          match kv.2 with
          | .str s => some (Frame.text kv.1 s)
          | _ => none) := by
  have h1 := json_to_tag_fold entries Tag.new (by simp [Tag.new]) hnd
  simpa [json_to_tag, Tag.new, text_frames] using h1

/-- Witness for C5 at the spec's example: applying an object with entries
a="x" and b=5 yields only the frame a="x". -/
theorem c5_witness :
    (json_to_tag [("a", JsonValue.str "x"), ("b", JsonValue.num 5)]).frames
      = [Frame.text "a" "x"] :=
  (c5_nonstring_ignored _ (by decide)).trans (by decide)

/-- Claim C6: when the parsed sidecar document's top level is not an
object/mapping, `apply_tags` fails with the InvalidDocument error and its
trace is empty — no TagSet is written. -/
theorem c6_invalid_document (parse : String → Except String JsonValue)
    (ops : FileOps) (opts : SingleOpts) (s : String) (j : JsonValue)
    (hr : ops.read_to_string (opts.json.getD (with_extension opts.id3 ".json")) = .ok s)
    (hp : parse s = .ok j) (ho : j.is_object = false) :
    apply_tags parse ops opts = (.error "No root object found", []) := by
  simp [apply_tags, hr, hp, ho]

/-- Witness for C6 with a parsed top-level array. -/
theorem c6_witness :
    apply_tags (fun _ => .ok (JsonValue.arr []))
      ⟨fun _ => .ok "[]", fun _ => true, fun _ => .ok [], fun _ _ => .ok ()⟩
      ⟨"a.mp3", none, none⟩
      = (.error "No root object found", []) :=
  c6_invalid_document (fun _ => .ok (JsonValue.arr []))
    ⟨fun _ => .ok "[]", fun _ => true, fun _ => .ok [], fun _ _ => .ok ()⟩
    ⟨"a.mp3", none, none⟩ "[]" (JsonValue.arr []) rfl rfl rfl

/-- Counterexample for C7: `"amp3b.txt"` contains the substring `"mp3"`, so
under the claim it would be processed; but batch traversal leaves the state
untouched (no document is produced for it), because the code's filter is
`ends_with("mp3")`, a suffix check. -/
theorem c7_substring_counterexample :
    ("amp3b.txt" = "a" ++ "mp3" ++ "b.txt")
    ∧ batch_extract (fun _ => "") (fun _ => none) true true
        [FSEntry.file "amp3b.txt" (.ok ⟨[]⟩)] ⟨JsonValue.obj [], []⟩
      = .ok ⟨JsonValue.obj [], []⟩ := by
  constructor
  · rfl
  · have hc : str_ends_with "amp3b.txt" "mp3" = false := by decide
    rw [batch_extract, hc]
    simp [batch_extract]

/-- Claim C7 (amended): in batch traversal a regular file is processed iff its
path ends with the case-sensitive suffix `"mp3"`; otherwise it is skipped
silently, traversal moving on to the remaining entries. -/
theorem c7_suffix_filter (pretty : JsonValue → String)
    (we : String → Option WriteFailure) (agg rec : Bool) (path : String)
    (tr : Except String Tag) (rest : List FSEntry) (s : BState) :
    batch_extract pretty we agg rec (FSEntry.file path tr :: rest) s
      = if str_ends_with path "mp3" then
          match handle_file pretty we agg path tr s with
          | .ok s1 => batch_extract pretty we agg rec rest s1
          | .error (m, s1) => .fatal m s1
        else
          batch_extract pretty we agg rec rest s := by
  rw [batch_extract]

/-- Claim C8: aggregate mode — a successfully processed file's document is
inserted into the shared blob under its path as key and no per-file sidecar is
written, while present album art is still written to its per-file
`<file>.jpeg` path (first two conjuncts); on completion the run's trace is
per-file art writes and stderr reports followed by exactly one final stdout
print of the serialized blob, and an aborted run prints nothing (last two
conjuncts). -/
theorem c8_aggregate_mode (pretty : JsonValue → String)
    (we : String → Option WriteFailure) (rec : Bool) (files : List FSEntry) :
    (∀ path tr s json d1, extract_tags_pic tr = .ok (json, some d1) →
        we (with_extension path "jpeg") = none →
        handle_file pretty we true path tr s
          = .ok ⟨s.blob.insert path json,
                 s.events ++ [.writeFile (with_extension path "jpeg") (.bytes d1)]⟩)
    ∧ (∀ path tr s json, extract_tags_pic tr = .ok (json, none) →
        handle_file pretty we true path tr s = .ok ⟨s.blob.insert path json, s.events⟩)
    ∧ (∀ s1, run_batch_extract pretty we true rec files = .ok s1 →
        ∃ evs, s1.events = evs ++ [.stdoutMsg (pretty s1.blob)] ∧ evs.all agg_event_ok)
    ∧ (∀ e s1, run_batch_extract pretty we true rec files = .fatal e s1 →
        s1.events.all agg_event_ok) := by
  refine ⟨?_, ?_, ?_, ?_⟩
  · intro path tr s json d1 htr hw
    simp [handle_file, htr, write_data_to_path, hw, emit_doc]
  · intro path tr s json htr
    simp [handle_file, htr, emit_doc]
  · intro s1 h
    cases hb : batch_extract pretty we true rec files ⟨JsonValue.obj [], []⟩ with
    | ok s2 =>
      obtain ⟨d, hd, hall⟩ := batch_agg_events pretty we rec files ⟨JsonValue.obj [], []⟩
      rw [hb] at hd
      simp only [BResult.events, List.nil_append] at hd
      have hrun : run_batch_extract pretty we true rec files
          = BResult.ok ⟨s2.blob, s2.events ++ [Event.stdoutMsg (pretty s2.blob)]⟩ := by
        rw [run_batch_extract, hb]
        rfl
      rw [hrun] at h
      injection h with h1
      subst h1
      refine ⟨s2.events, by simp, ?_⟩
      rw [hd]
      exact hall
    | fatal e s2 =>
      have hrun : run_batch_extract pretty we true rec files = BResult.fatal e s2 := by
        rw [run_batch_extract, hb]
      rw [hrun] at h
      exact BResult.noConfusion h
    | panicked s2 =>
      have hrun : run_batch_extract pretty we true rec files = BResult.panicked s2 := by
        rw [run_batch_extract, hb]
      rw [hrun] at h
      exact BResult.noConfusion h
  · intro e s1 h
    cases hb : batch_extract pretty we true rec files ⟨JsonValue.obj [], []⟩ with
    | ok s2 =>
      have hrun : run_batch_extract pretty we true rec files
          = BResult.ok ⟨s2.blob, s2.events ++ [Event.stdoutMsg (pretty s2.blob)]⟩ := by
        rw [run_batch_extract, hb]
        rfl
      rw [hrun] at h
      exact BResult.noConfusion h
    | fatal e2 s2 =>
      obtain ⟨d, hd, hall⟩ := batch_agg_events pretty we rec files ⟨JsonValue.obj [], []⟩
      rw [hb] at hd
      simp only [BResult.events, List.nil_append] at hd
      have hrun : run_batch_extract pretty we true rec files = BResult.fatal e2 s2 := by
        rw [run_batch_extract, hb]
      rw [hrun] at h
      injection h with h1 h2
      subst h2
      rw [hd]
      exact hall
    | panicked s2 =>
      have hrun : run_batch_extract pretty we true rec files = BResult.panicked s2 := by
        rw [run_batch_extract, hb]
      rw [hrun] at h
      exact BResult.noConfusion h

/-- Witness for C8: a concrete one-file aggregate run ends with the single
stdout print of the serialized blob. -/
theorem c8_witness :
    ∃ evs, ([Event.stdoutMsg "J"] : List Event)
        = evs ++ [Event.stdoutMsg ((fun _ => "J") (JsonValue.obj [("a.mp3", JsonValue.obj [])]))]
      ∧ evs.all agg_event_ok := by
  have hrun : run_batch_extract (fun _ => "J") (fun _ => none) true true
      [FSEntry.file "a.mp3" (.ok ⟨[]⟩)]
      = .ok ⟨JsonValue.obj [("a.mp3", JsonValue.obj [])], [Event.stdoutMsg "J"]⟩ := by
    have hend : str_ends_with "a.mp3" "mp3" = true := by decide
    rw [run_batch_extract]
    rw [batch_extract, if_pos hend]
    simp [handle_file, extract_tags_pic, tags_to_json, Tag.first_picture, emit_doc,
      JsonValue.insert, objInsert, batch_extract]
  exact (c8_aggregate_mode (fun _ => "J") (fun _ => none) true
    [FSEntry.file "a.mp3" (.ok ⟨[]⟩)]).2.2.1
    ⟨JsonValue.obj [("a.mp3", JsonValue.obj [])], [Event.stdoutMsg "J"]⟩ hrun

/-- Counterexample for C9: a directory whose `read_dir` call itself fails
panics the run (the code unwraps that result), refuting the claim that the
listing step never aborts or panics the traversal. -/
theorem c9_listing_panic_counterexample :
    batch_extract (fun _ => "") (fun _ => none) false true [FSEntry.dirErr "locked"]
      ⟨JsonValue.obj [], []⟩ = .panicked ⟨JsonValue.obj [], []⟩ := by
  rw [batch_extract, if_pos rfl]

/-- Claim C9 (amended): with recurse enabled, a successfully listed
directory's entries are traversed (entries that errored while listing —
`badEntry` — are skipped) and traversal continues with the remaining inputs;
with recurse disabled, directories are skipped entirely, even those whose
listing would fail.  Only a failing `read_dir` call itself (covered by the
counterexample) panics. -/
theorem c9_directory_handling (pretty : JsonValue → String)
    (we : String → Option WriteFailure) (agg : Bool) (p : String)
    (children rest : List FSEntry) (s : BState) :
    (batch_extract pretty we agg true (FSEntry.dirOk p children :: rest) s
        = match batch_extract pretty we agg true children s with
          | .ok s1 => batch_extract pretty we agg true rest s1
          | r => r)
    ∧ (batch_extract pretty we agg true (FSEntry.badEntry :: rest) s
        = batch_extract pretty we agg true rest s)
    ∧ (batch_extract pretty we agg false (FSEntry.dirOk p children :: rest) s
        = batch_extract pretty we agg false rest s)
    ∧ (batch_extract pretty we agg false (FSEntry.dirErr p :: rest) s
        = batch_extract pretty we agg false rest s) := by
  refine ⟨?_, ?_, ?_, ?_⟩
  · rw [batch_extract, if_pos rfl]
  · rw [batch_extract]
  · rw [batch_extract, if_neg Bool.false_ne_true]
  · rw [batch_extract, if_neg Bool.false_ne_true]

/-- Claim C10: apply is atomic on every pre-write error — whenever any of the
enumerated steps fails (sidecar unreadable, JSON malformed, root not an
object, declared art missing, or art bytes unreadable), `apply_tags` returns
an error and its trace is empty, because the tag write is the final step. -/
theorem c10_apply_atomic (parse : String → Except String JsonValue)
    (ops : FileOps) (opts : SingleOpts)
    (h : is_prewrite_failure parse ops opts = true) :
    (apply_tags parse ops opts).1.isOk = false
      ∧ (apply_tags parse ops opts).2 = [] := by
  cases hr : ops.read_to_string (opts.json.getD (with_extension opts.id3 ".json")) with
  | error e => simp [apply_tags, hr, Except.isOk, Except.toBool]
  | ok s =>
    cases hp : parse s with
    | error e => simp [apply_tags, hr, hp, Except.isOk, Except.toBool]
    | ok j =>
      by_cases ho : j.is_object
      · cases ha : opts.art with
        | none => exact absurd h (by simp [is_prewrite_failure, hr, hp, ho, ha])
        | some p =>
          by_cases he : ops.file_exists p
          · cases hb : ops.read_bytes p with
            | error e =>
              simp [apply_tags, hr, hp, ho, ha, he, hb, Except.isOk, Except.toBool]
            | ok d =>
              exact absurd h (by simp [is_prewrite_failure, hr, hp, ho, ha, he, hb])
          · simp [apply_tags, hr, hp, ho, ha, he, Except.isOk, Except.toBool]
      · simp [apply_tags, hr, hp, ho, Except.isOk, Except.toBool]

/-- Witness for C10 with an unreadable sidecar. -/
theorem c10_witness :
    (apply_tags (fun _ => .error "bad") ⟨fun _ => .error "enoent", fun _ => true,
        fun _ => .ok [], fun _ _ => .ok ()⟩ ⟨"a.mp3", none, none⟩).1.isOk = false
      ∧ (apply_tags (fun _ => .error "bad") ⟨fun _ => .error "enoent", fun _ => true,
        fun _ => .ok [], fun _ _ => .ok ()⟩ ⟨"a.mp3", none, none⟩).2 = [] :=
  c10_apply_atomic (fun _ => .error "bad")
    ⟨fun _ => .error "enoent", fun _ => true, fun _ => .ok [], fun _ _ => .ok ()⟩
    ⟨"a.mp3", none, none⟩ rfl

end Tag2Json
